import Mathlib

/-!
# Verification of the BetAI betting-decision engine

Shallow embedding, over exact rationals, of the two agent implementations:

* `backend/core/betai/agents/agent_v2.py` (`BettingAgent`): odds conversion,
  implied probability, expected value, fractional-Kelly stake sizing,
  `make_recommendation` (evaluate) and `record_result` (settle) over an
  in-memory ledger of `BetRecord`s and a running bankroll.
* `agent.py` (legacy `BettingAgent`): `calculate_expected_value` and
  `calculate_kelly_stake` with their fixed `0.1` cap and `round(stake, 2)`.

Modelling conventions:

* Python floats become `ℚ`; Python float division by zero raises
  `ZeroDivisionError`, so functions that can divide by a value that may be
  zero return `Except String _`.
* `uuid.uuid4()` bet ids are modelled by a fresh-id counter in the agent
  state (the property uuid provides is freshness); `time.time()` timestamps
  by a step counter.
* The market coordinators (`MoneylineCoordinator` and friends) wrap sklearn
  models; they are external collaborators here and `make_recommendation`
  takes the coordinator's output map as an oracle function
  `context ↦ (p_model, model_name)`.  The registered-market check itself
  (`market in self.coordinators`, with only `"moneyline"` registered) is
  embedded faithfully.
* Python's `round(x, 2)` is round-half-to-even on the scaled value.
-/

namespace BetAI

/-- Result state of a bet record: Python `Literal["open", "win", "loss"]`. -/
inductive BetResult where
  | open
  | win
  | loss
deriving DecidableEq, Repr

/-- Settlement outcome passed to `record_result`: Python `Literal["win", "loss"]`. -/
inductive Outcome where
  | win
  | loss
deriving DecidableEq, Repr

/-- The result value a settlement outcome stamps on the record
(`rec.result = outcome`). -/
def Outcome.toResult : Outcome → BetResult
  | .win => .win
  | .loss => .loss

/-- `BetRecord` from `agent_v2.py`.  The opaque `context` dict is carried as a
string tag; `ts` is the step counter standing in for `time.time()`. -/
structure BetRecord where
  id : Nat
  ts : Nat
  market : String
  side : String
  model_used : String
  decimal_odds : ℚ
  p_model : ℚ
  p_implied : ℚ
  ev : ℚ
  stake : ℚ
  context : String
  result : BetResult := .open
  pnl : ℚ := 0
  bankroll_after : Option ℚ := none
deriving DecidableEq, Repr

/-- The mutable state of `agent_v2.BettingAgent`: bankroll, the three policy
knobs read from the environment at construction, the in-memory ledger, and
the counters modelling uuid/time. -/
structure AgentState where
  bankroll : ℚ
  kelly_fraction : ℚ := 1/4
  max_stake_pct : ℚ := 1/10
  default_ev_threshold : ℚ := 1/50
  history : List BetRecord := []
  next_id : Nat := 0
  now : Nat := 0
deriving DecidableEq, Repr

/-- The coordinator dict of `agent_v2.BettingAgent.__init__` holds exactly the
`"moneyline"` key. -/
def registeredMarkets : List String := ["moneyline"]

/-- Python `str.lower()`, written over the character list so the kernel can
evaluate it on literals. -/
def strLower (s : String) : String := ⟨s.data.map Char.toLower⟩

/-- `BettingAgent.odds_to_decimal`.  An American price of `0` falls into the
`else` branch and divides `100.0 / abs(0)`, a `ZeroDivisionError`; an
unsupported format string raises `ValueError`. -/
def odds_to_decimal (odds_value : ℚ) (odds_type : String) : Except String ℚ :=
  let t := strLower odds_type
  if t = "decimal" then .ok odds_value
  else if t = "american" then
    let o := odds_value
    if o > 0 then .ok (1 + o / 100)
    else if |o| = 0 then .error "ZeroDivisionError: 100.0 / abs(0)"
    else .ok (1 + 100 / |o|)
  else .error ("Unsupported odds_type: " ++ odds_type)

/-- `BettingAgent.implied_prob`: `1.0 / float(decimal_odds)`, a
`ZeroDivisionError` at zero. -/
def implied_prob (decimal_odds : ℚ) : Except String ℚ :=
  if decimal_odds = 0 then .error "ZeroDivisionError: 1.0 / 0.0"
  else .ok (1 / decimal_odds)

/-- `BettingAgent.expected_value`: `EV = p * (dec - 1) - (1 - p)`. -/
def expected_value (p dec : ℚ) : ℚ :=
  let b := dec - 1
  p * b - (1 - p)

/-- The raw (clamped) Kelly fraction computed inside
`BettingAgent.kelly_stake`: `(b*p - (1-p)) / b` when `b > 0`, else `0`,
clamped to `max 0 _` ("never negative stake"). -/
def kelly_fraction_raw (p dec : ℚ) : ℚ :=
  let b := dec - 1
  let raw_k := if b > 0 then ((b * p) - (1 - p)) / b else 0
  max 0 raw_k

/-- `BettingAgent.kelly_stake`: fractional Kelly with the per-bet hard cap
`bankroll * max_stake_pct`. -/
def kelly_stake (s : AgentState) (p dec : ℚ) : ℚ :=
  let raw_k := kelly_fraction_raw p dec
  let f := raw_k * s.kelly_fraction
  let stake := s.bankroll * f
  let cap := s.bankroll * s.max_stake_pct
  max 0 (min stake cap)

/-- `BettingAgent.make_recommendation`.  Steps follow the source: 1) price
math, 2) coordinator lookup and call (`coord` is the external model oracle),
3) EV and decision, 4) sizing, 5) append the open record, 6) return the
record together with the decision label (the returned dict also carries
`bankroll_now = self.bankroll`). -/
def make_recommendation (s : AgentState) (market side context : String)
    (coord : String → ℚ × String) (odds_value : ℚ) (odds_type : String)
    (ev_threshold : Option ℚ) :
    Except String (AgentState × BetRecord × String) := do
  let dec ← odds_to_decimal odds_value odds_type
  let p_imp ← implied_prob dec
  if market ∉ registeredMarkets then
    .error ("No coordinator registered for market " ++ market)
  else
    let out := coord context
    let p_model := out.1
    let model_name := out.2
    let ev := expected_value p_model dec
    let threshold := ev_threshold.getD s.default_ev_threshold
    let decision := if ev ≥ threshold then "BET" else "NO BET"
    let stake := if decision = "BET" then kelly_stake s p_model dec else 0
    let record : BetRecord :=
      { id := s.next_id, ts := s.now, market := market, side := side,
        model_used := model_name, decimal_odds := dec, p_model := p_model,
        p_implied := p_imp, ev := ev, stake := stake, context := context }
    .ok ({ s with history := s.history ++ [record],
                  next_id := s.next_id + 1, now := s.now + 1 },
         record, decision)

/-- The settlement of one matched record inside `record_result`:
`pnl = stake * (decimal_odds - 1)` on a win, `-stake` on a loss; the record
is stamped with the outcome, the pnl and the post-update bankroll. -/
def settleRecord (bankroll : ℚ) (rec : BetRecord) (outcome : Outcome) :
    BetRecord × ℚ :=
  let pnl := match outcome with
    | .win => rec.stake * (rec.decimal_odds - 1)
    | .loss => -rec.stake
  let newBankroll := bankroll + pnl
  ({ rec with result := outcome.toResult, pnl := pnl,
              bankroll_after := some newBankroll },
   newBankroll)

/-- The `for rec in self.history` loop of `record_result`: settle the first
record whose id matches and whose result is still `open`; `none` when the
loop falls through. -/
def settleFirst (bankroll : ℚ) (hist : List BetRecord) (bet_id : Nat)
    (outcome : Outcome) : Option (List BetRecord × BetRecord × ℚ) :=
  match hist with
  | [] => none
  | rec :: rest =>
    if rec.id = bet_id ∧ rec.result = .open then
      let out := settleRecord bankroll rec outcome
      some (out.1 :: rest, out.1, out.2)
    else
      match settleFirst bankroll rest bet_id outcome with
      | some (rest2, r, nb) => some (rec :: rest2, r, nb)
      | none => none

/-- `BettingAgent.record_result`: settle an existing open bet, updating the
bankroll, or raise `ValueError` ("not found or already settled"). -/
def record_result (s : AgentState) (bet_id : Nat) (outcome : Outcome) :
    Except String (AgentState × BetRecord) :=
  match settleFirst s.bankroll s.history bet_id outcome with
  | some (hist2, rec2, nb) =>
      .ok ({ s with bankroll := nb, history := hist2 }, rec2)
  | none => .error "Bet id not found or already settled."

/-! ## Legacy agent (`agent.py`) -/

/-- Python's banker's rounding to an integer: round half to even. -/
def roundHalfEven (x : ℚ) : ℤ :=
  let f := ⌊x⌋
  let frac := x - f
  if frac < 1/2 then f
  else if frac = 1/2 then (if f % 2 = 0 then f else f + 1)
  else f + 1

/-- Python `round(x, n)`: banker's rounding at `n` decimal places. -/
def pyRound (x : ℚ) (n : ℕ) : ℚ :=
  (roundHalfEven (x * 10 ^ n) : ℚ) / 10 ^ n

/-- State of the legacy `agent.py` `BettingAgent`: starting bankroll, current
bankroll and the Kelly fraction (its stake cap percentage is the hardcoded
`0.1`). -/
structure LegacyAgentState where
  initial_bankroll : ℚ := 1000
  bankroll : ℚ := 1000
  kelly_fraction : ℚ := 1/4
deriving DecidableEq, Repr

/-- Legacy `BettingAgent.calculate_expected_value`: computes
`implied_prob = 1 / odds` (a `ZeroDivisionError` when `odds == 0`), then
returns `((model_prob * odds) - 1) * 100`. -/
def calculate_expected_value (model_prob odds : ℚ) : Except String ℚ :=
  if odds = 0 then .error "ZeroDivisionError: 1 / odds"
  else .ok ((model_prob * odds - 1) * 100)

/-- Legacy `BettingAgent.calculate_kelly_stake`: unguarded Kelly formula
(`ZeroDivisionError` when `odds == 1`), `max(0, kelly)`, fractional Kelly,
`min` with the hardcoded `0.1` bankroll cap, then `round(stake, 2)`. -/
def calculate_kelly_stake (s : LegacyAgentState) (model_prob odds : ℚ) :
    Except String ℚ :=
  let b := odds - 1
  if b = 0 then .error "ZeroDivisionError: (b * p - q) / b"
  else
    let p := model_prob
    let q := 1 - p
    let kelly := (b * p - q) / b
    let kelly2 := max 0 kelly
    let stake := s.bankroll * kelly2 * s.kelly_fraction
    let max_stake := s.bankroll * (1/10)
    let stake2 := min stake max_stake
    .ok (pyRound stake2 2)

/-- The dict returned by the legacy `BettingAgent.make_recommendation`. -/
structure LegacyRecommendation where
  action : String
  model_probability : ℚ
  implied_probability : ℚ
  expected_value : ℚ
  confidence : ℚ
  stake : ℚ
  model_used : String
  current_bankroll : ℚ
deriving DecidableEq, Repr

/-- Legacy `BettingAgent.make_recommendation`.  `predict_probability` draws
from `np.random`, so its output `(model_prob, model_name)` is taken as an
oracle input; everything downstream is the source's deterministic logic:
`should_bet = ev > ev_threshold`, stake via `calculate_kelly_stake` only
when betting, display roundings on the returned dict.  The Python default
for `ev_threshold` is `5.0`. -/
def legacy_make_recommendation (s : LegacyAgentState) (model_prob : ℚ)
    (model_name : String) (odds : ℚ) (ev_threshold : ℚ := 5) :
    Except String LegacyRecommendation := do
  let ev ← calculate_expected_value model_prob odds
  let should_bet := ev > ev_threshold
  let stake ← if should_bet then calculate_kelly_stake s model_prob odds
              else .ok 0
  let confidence := min (|ev| / 10) 1
  .ok { action := if should_bet then "BET" else "NO BET",
        model_probability := pyRound model_prob 3,
        implied_probability := pyRound (1 / odds) 3,
        expected_value := pyRound ev 2,
        confidence := pyRound confidence 3,
        stake := stake,
        model_used := model_name,
        current_bankroll := pyRound s.bankroll 2 }

/-! ## Trace semantics for the agent_v2 ledger -/

/-- One external call on the v2 agent: an evaluate (`make_recommendation`)
or a settle (`record_result`). -/
inductive Op where
  | eval (market side context : String) (coord : String → ℚ × String)
      (odds_value : ℚ) (odds_type : String) (ev_threshold : Option ℚ)
  | settle (bet_id : Nat) (outcome : Outcome)

/-- Apply one call; a raised error leaves the agent state untouched (the
exception propagates before any mutation). -/
def applyOp (s : AgentState) : Op → AgentState
  | .eval market side context coord odds_value odds_type ev_threshold =>
      match make_recommendation s market side context coord odds_value
              odds_type ev_threshold with
      | .ok out => out.1
      | .error _ => s
  | .settle bet_id outcome =>
      match record_result s bet_id outcome with
      | .ok out => out.1
      | .error _ => s

/-- Run a finite sequence of calls. -/
def run (s : AgentState) (ops : List Op) : AgentState := ops.foldl applyOp s

/-- Sum of the `pnl` values over the settled (non-open) records. -/
def settledPnl (hist : List BetRecord) : ℚ :=
  ((hist.filter fun r => r.result ≠ BetResult.open).map BetRecord.pnl).sum

/-- An evaluate-only trace (no settle calls). -/
def evalOnly : List Op → Prop := fun ops => ∀ op ∈ ops,
  match op with
  | .eval _ _ _ _ _ _ _ => True
  | .settle _ _ => False

/-- The pnl computed for one record by `record_result`. -/
def pnlOf (rec : BetRecord) : Outcome → ℚ
  | .win => rec.stake * (rec.decimal_odds - 1)
  | .loss => -rec.stake

/-- The conservation invariant: the bankroll is the initial bankroll plus the
settled pnl, bet ids are below the fresh-id counter, and ids are unique. -/
def ledgerInv (init : ℚ) (s : AgentState) : Prop :=
  s.bankroll = init + settledPnl s.history ∧
  (∀ r ∈ s.history, r.id < s.next_id) ∧
  (s.history.map BetRecord.id).Nodup

/-! ## Concrete instances (the spec's worked scenario) -/

/-- An agent at the configured defaults with bankroll 1000. -/
def demoState : AgentState := { bankroll := 1000 }

/-- A constant coordinator oracle: `p_model = 0.46` from model `"m"`. -/
def demoCoord : String → ℚ × String := fun _ => (46/100, "m")

/-- The spec's worked example: an open record staking 25 at decimal 2.5. -/
def demoRecord : BetRecord :=
  { id := 0, ts := 0, market := "moneyline", side := "DET ML",
    model_used := "m", decimal_odds := 5/2, p_model := 46/100,
    p_implied := 2/5, ev := 3/20, stake := 25, context := "ctx" }

/-- An agent whose ledger holds exactly the worked example record. -/
def demoLedger : AgentState :=
  { bankroll := 1000, history := [demoRecord], next_id := 1, now := 1 }

/-- The worked example record settled as a win: pnl 37.5. -/
def demoSettledRecord : BetRecord :=
  { demoRecord with result := BetResult.win, pnl := 75/2,
                    bankroll_after := some (2075/2) }

/-- The ledger agent after settling the worked example as a win. -/
def demoSettledState : AgentState :=
  { demoLedger with bankroll := 2075/2, history := [demoSettledRecord] }

/-- An evaluate-then-settle trace on the demo scenario. -/
def demoOps : List Op :=
  [Op.eval "moneyline" "DET ML" "ctx" demoCoord (5/2) "decimal" none,
   Op.settle 0 Outcome.win]

/-- The dict the legacy agent returns for `p = 0.6`, `odds = 2`,
`threshold = 5`. -/
def demoLegacyOut : LegacyRecommendation :=
  { action := "BET", model_probability := 3/5, implied_probability := 1/2,
    expected_value := 20, confidence := 1, stake := 50, model_used := "m",
    current_bankroll := 1000 }

/-! ## Characterization lemmas -/

theorem make_recommendation_ok {s : AgentState} {market side context : String}
    {coord : String → ℚ × String} {odds_value : ℚ} {odds_type : String}
    {ev_threshold : Option ℚ} {s' : AgentState} {rec : BetRecord} {d : String}
    (h : make_recommendation s market side context coord odds_value odds_type
           ev_threshold = .ok (s', rec, d)) :
    s' = { s with history := s.history ++ [rec], next_id := s.next_id + 1,
                  now := s.now + 1 } ∧
    rec.id = s.next_id ∧ rec.result = .open ∧ rec.pnl = 0 ∧
    (d = "BET" ↔ rec.ev ≥ ev_threshold.getD s.default_ev_threshold) ∧
    (d = "NO BET" → rec.stake = 0) := by
  unfold make_recommendation at h
  cases hdec : odds_to_decimal odds_value odds_type with
  | error e => simp [hdec, Bind.bind, Except.bind] at h
  | ok dec =>
    cases himp : implied_prob dec with
    | error e => simp [hdec, himp, Bind.bind, Except.bind] at h
    | ok p_imp =>
      by_cases hm : market ∈ registeredMarkets
      · simp only [hdec, himp, Bind.bind, Except.bind, hm, not_true_eq_false,
          if_false] at h
        by_cases hev : expected_value (coord context).1 dec ≥
            ev_threshold.getD s.default_ev_threshold
        · simp only [if_pos hev, Except.ok.injEq, Prod.mk.injEq] at h
          obtain ⟨hs', hrec, hd⟩ := h
          subst hs'; subst hrec; subst hd
          refine ⟨rfl, rfl, rfl, rfl, ?_, ?_⟩
          · simp [hev]
          · intro hno; simp at hno
        · simp only [if_neg hev, Except.ok.injEq, Prod.mk.injEq] at h
          obtain ⟨hs', hrec, hd⟩ := h
          subst hs'; subst hrec; subst hd
          refine ⟨rfl, rfl, rfl, rfl, ?_, ?_⟩
          · simp [hev]
          · intro _; simp [hev]
      · simp [hdec, himp, Bind.bind, Except.bind, hm] at h

theorem settleRecord_eq (bankroll : ℚ) (rec : BetRecord) (outcome : Outcome) :
    settleRecord bankroll rec outcome =
      ({ rec with result := outcome.toResult, pnl := pnlOf rec outcome,
                  bankroll_after := some (bankroll + pnlOf rec outcome) },
       bankroll + pnlOf rec outcome) := by
  cases outcome <;> rfl

theorem Outcome.toResult_ne_open (outcome : Outcome) :
    outcome.toResult ≠ BetResult.open := by
  cases outcome <;> simp [Outcome.toResult]

theorem settleFirst_some {bankroll : ℚ} {hist : List BetRecord} {bet_id : Nat}
    {outcome : Outcome} {hist2 : List BetRecord} {rec2 : BetRecord} {nb : ℚ}
    (h : settleFirst bankroll hist bet_id outcome = some (hist2, rec2, nb)) :
    ∃ pre rec post,
      hist = pre ++ rec :: post ∧
      (∀ r ∈ pre, ¬(r.id = bet_id ∧ r.result = BetResult.open)) ∧
      rec.id = bet_id ∧ rec.result = BetResult.open ∧
      rec2 = { rec with result := outcome.toResult, pnl := pnlOf rec outcome,
                        bankroll_after := some (bankroll + pnlOf rec outcome) } ∧
      nb = bankroll + pnlOf rec outcome ∧
      hist2 = pre ++ rec2 :: post := by
  induction hist generalizing hist2 rec2 nb with
  | nil => simp [settleFirst] at h
  | cons r rest ih =>
    by_cases hc : r.id = bet_id ∧ r.result = BetResult.open
    · rw [settleFirst, if_pos hc, settleRecord_eq] at h
      simp only [Option.some.injEq, Prod.mk.injEq] at h
      obtain ⟨h1, h2, h3⟩ := h
      refine ⟨[], r, rest, by simp, by simp, hc.1, hc.2, h2.symm, h3.symm, ?_⟩
      simp [← h1, ← h2]
    · rw [settleFirst, if_neg hc] at h
      cases hrest : settleFirst bankroll rest bet_id outcome with
      | none => rw [hrest] at h; exact absurd h (by simp)
      | some out =>
        obtain ⟨rest2, rr, nb'⟩ := out
        rw [hrest] at h
        simp only [Option.some.injEq, Prod.mk.injEq] at h
        obtain ⟨h1, h2, h3⟩ := h
        obtain ⟨pre, rc, post, e1, e2, e3, e4, e5, e6, e7⟩ := ih hrest
        subst h2; subst h3
        refine ⟨r :: pre, rc, post, by simp [e1], ?_, e3, e4, e5, e6, ?_⟩
        · intro x hx
          rcases List.mem_cons.mp hx with hx | hx
          · exact hx ▸ hc
          · exact e2 x hx
        · simp [← h1, e7]

theorem settleFirst_none_iff {bankroll : ℚ} {hist : List BetRecord}
    {bet_id : Nat} {outcome : Outcome} :
    settleFirst bankroll hist bet_id outcome = none ↔
      ∀ r ∈ hist, ¬(r.id = bet_id ∧ r.result = BetResult.open) := by
  induction hist with
  | nil => simp [settleFirst]
  | cons r rest ih =>
    by_cases hc : r.id = bet_id ∧ r.result = BetResult.open
    · rw [settleFirst, if_pos hc]
      simp only [List.mem_cons]
      constructor
      · intro h; exact absurd h (by simp)
      · intro h; exact absurd hc (h r (Or.inl rfl))
    · rw [settleFirst, if_neg hc]
      cases hrest : settleFirst bankroll rest bet_id outcome with
      | none =>
        simp only [List.mem_cons]
        constructor
        · intro _ x hx
          rcases hx with hx | hx
          · exact hx ▸ hc
          · exact (ih.mp hrest) x hx
        · intro _; trivial
      | some out =>
        obtain ⟨rest2, rr, nb'⟩ := out
        simp only [List.mem_cons]
        constructor
        · intro h; exact absurd h (by simp)
        · intro h
          exact absurd hrest (by
            rw [ih.mpr fun x hx => h x (Or.inr hx)]; simp)

theorem settledPnl_append (a b : List BetRecord) :
    settledPnl (a ++ b) = settledPnl a + settledPnl b := by
  simp [settledPnl, List.filter_append]

theorem settledPnl_open_cons {rec : BetRecord}
    (h : rec.result = BetResult.open) (rest : List BetRecord) :
    settledPnl (rec :: rest) = settledPnl rest := by
  simp [settledPnl, List.filter_cons, h]

theorem settledPnl_settled_cons {rec : BetRecord}
    (h : rec.result ≠ BetResult.open) (rest : List BetRecord) :
    settledPnl (rec :: rest) = rec.pnl + settledPnl rest := by
  simp [settledPnl, List.filter_cons, h]

theorem settledPnl_nil : settledPnl [] = 0 := rfl

theorem record_result_ok {s : AgentState} {bet_id : Nat} {outcome : Outcome}
    {s' : AgentState} {rec2 : BetRecord}
    (h : record_result s bet_id outcome = .ok (s', rec2)) :
    s'.bankroll = s.bankroll + rec2.pnl ∧
    settledPnl s'.history = settledPnl s.history + rec2.pnl ∧
    s'.history.map BetRecord.id = s.history.map BetRecord.id ∧
    s'.next_id = s.next_id := by
  unfold record_result at h
  cases hsf : settleFirst s.bankroll s.history bet_id outcome with
  | none => rw [hsf] at h; exact absurd h (by simp)
  | some out =>
    obtain ⟨hist2, r2, nb⟩ := out
    rw [hsf] at h
    simp only [Except.ok.injEq, Prod.mk.injEq] at h
    obtain ⟨hs', hr⟩ := h
    subst hr
    obtain ⟨pre, rec, post, e1, e2, e3, e4, e5, e6, e7⟩ := settleFirst_some hsf
    have hpnl : r2.pnl = pnlOf rec outcome := by rw [e5]
    have hres : r2.result ≠ BetResult.open := by
      rw [e5]; exact Outcome.toResult_ne_open outcome
    have hid : r2.id = rec.id := by rw [e5]
    subst hs'
    refine ⟨by simp [e6, hpnl], ?_, ?_, rfl⟩
    · simp only []
      rw [e1, e7, settledPnl_append, settledPnl_append,
          settledPnl_settled_cons hres, settledPnl_open_cons e4]
      ring
    · simp only []
      rw [e1, e7, List.map_append, List.map_append, List.map_cons,
          List.map_cons, hid]

theorem applyOp_ledgerInv {init : ℚ} {s : AgentState} (op : Op)
    (h : ledgerInv init s) : ledgerInv init (applyOp s op) := by
  obtain ⟨hb, hlt, hnd⟩ := h
  cases op with
  | eval market side context coord odds_value odds_type ev_threshold =>
    simp only [applyOp]
    cases hmr : make_recommendation s market side context coord odds_value
        odds_type ev_threshold with
    | error e => exact ⟨hb, hlt, hnd⟩
    | ok out =>
      obtain ⟨s', rec, d⟩ := out
      obtain ⟨hs', hid, hres, _, _, _⟩ := make_recommendation_ok hmr
      subst hs'
      refine ⟨?_, ?_, ?_⟩
      · simpa [settledPnl_append, settledPnl_open_cons hres,
          settledPnl_nil] using hb
      · intro r hr
        simp only [List.mem_append, List.mem_singleton] at hr
        rcases hr with hr | hr
        · exact Nat.lt_succ_of_lt (hlt r hr)
        · subst hr; simp [hid]
      · simp only [List.map_append, List.map_cons, List.map_nil,
          List.nodup_append]
        refine ⟨hnd, List.nodup_singleton _, ?_⟩
        intro x hx hx'
        simp only [List.mem_singleton] at hx'
        obtain ⟨r, hr, hrid⟩ := List.mem_map.mp hx
        subst hx'
        rw [hid] at hrid
        exact absurd hrid (Nat.ne_of_lt (hlt r hr))
  | settle bet_id outcome =>
    simp only [applyOp]
    cases hrr : record_result s bet_id outcome with
    | error e => exact ⟨hb, hlt, hnd⟩
    | ok out =>
      obtain ⟨s', rec2⟩ := out
      obtain ⟨h1, h2, h3, h4⟩ := record_result_ok hrr
      refine ⟨by rw [h1, h2, hb]; ring, ?_, by rw [h3]; exact hnd⟩
      intro r hr
      have hmem : r.id ∈ s'.history.map BetRecord.id :=
        List.mem_map_of_mem _ hr
      rw [h3] at hmem
      obtain ⟨r', hr', hrid⟩ := List.mem_map.mp hmem
      rw [h4, ← hrid]
      exact hlt r' hr'

theorem run_ledgerInv {init : ℚ} {s : AgentState} (ops : List Op)
    (h : ledgerInv init s) : ledgerInv init (run s ops) := by
  induction ops generalizing s with
  | nil => exact h
  | cons op rest ih => exact ih (applyOp_ledgerInv op h)

theorem applyOp_eval_bankroll (s : AgentState) (market side context : String)
    (coord : String → ℚ × String) (odds_value : ℚ) (odds_type : String)
    (ev_threshold : Option ℚ) :
    (applyOp s (.eval market side context coord odds_value odds_type
       ev_threshold)).bankroll = s.bankroll := by
  simp only [applyOp]
  cases hmr : make_recommendation s market side context coord odds_value
      odds_type ev_threshold with
  | error e => rfl
  | ok out =>
    obtain ⟨s', rec, d⟩ := out
    obtain ⟨hs', _, _, _, _, _⟩ := make_recommendation_ok hmr
    subst hs'; rfl

theorem run_evalOnly_bankroll (s : AgentState) (ops : List Op)
    (h : evalOnly ops) : (run s ops).bankroll = s.bankroll := by
  induction ops generalizing s with
  | nil => rfl
  | cons op rest ih =>
    have hrest : evalOnly rest := fun op' hop' =>
      h op' (List.mem_cons_of_mem _ hop')
    have hstep : (applyOp s op).bankroll = s.bankroll := by
      cases op with
      | eval market side context coord odds_value odds_type ev_threshold =>
        exact applyOp_eval_bankroll s market side context coord odds_value
          odds_type ev_threshold
      | settle bet_id outcome =>
        exact (h _ (List.mem_cons_self _ _)).elim
    calc (run s (op :: rest)).bankroll
        = (run (applyOp s op) rest).bankroll := rfl
      _ = (applyOp s op).bankroll := ih _ hrest
      _ = s.bankroll := hstep

/-! ## Stake-sizing bounds -/

theorem kelly_stake_nonneg (s : AgentState) (p dec : ℚ) :
    0 ≤ kelly_stake s p dec := le_max_left 0 _

theorem kelly_stake_le_cap (s : AgentState) (p dec : ℚ)
    (h : 0 ≤ s.bankroll * s.max_stake_pct) :
    kelly_stake s p dec ≤ s.bankroll * s.max_stake_pct :=
  max_le h (min_le_right _ _)

theorem kelly_stake_of_nonpos_price {p dec : ℚ} (s : AgentState)
    (hdec : dec ≤ 1) : kelly_stake s p dec = 0 := by
  simp only [kelly_stake, kelly_fraction_raw]
  rw [if_neg (by simp only [not_lt]; linarith : ¬ (0 < dec - 1))]
  simp only [max_self, zero_mul, mul_zero]
  exact max_eq_left (min_le_left 0 _)

theorem roundHalfEven_le (x : ℚ) : (roundHalfEven x : ℚ) ≤ x + 1/2 := by
  unfold roundHalfEven
  have hfl : (⌊x⌋ : ℚ) ≤ x := Int.floor_le x
  by_cases h1 : x - ⌊x⌋ < 1/2
  · rw [if_pos h1]; linarith
  · rw [if_neg h1]
    by_cases h2 : x - ⌊x⌋ = 1/2
    · rw [if_pos h2]
      by_cases h3 : ⌊x⌋ % 2 = 0
      · rw [if_pos h3]; linarith
      · rw [if_neg h3]; push_cast; linarith
    · rw [if_neg h2]
      have hlt : (1:ℚ)/2 < x - ⌊x⌋ := lt_of_le_of_ne (not_lt.mp h1) (Ne.symm h2)
      push_cast
      linarith

theorem roundHalfEven_nonneg {x : ℚ} (hx : 0 ≤ x) : 0 ≤ roundHalfEven x := by
  unfold roundHalfEven
  have hf : (0:ℤ) ≤ ⌊x⌋ := Int.floor_nonneg.mpr hx
  by_cases h1 : x - ⌊x⌋ < 1/2
  · rw [if_pos h1]; exact hf
  · rw [if_neg h1]
    by_cases h2 : x - ⌊x⌋ = 1/2
    · rw [if_pos h2]
      by_cases h3 : ⌊x⌋ % 2 = 0
      · rw [if_pos h3]; exact hf
      · rw [if_neg h3]; omega
    · rw [if_neg h2]; omega

theorem pyRound2_le (x : ℚ) : pyRound x 2 ≤ x + 1/200 := by
  have h := roundHalfEven_le (x * 10 ^ 2)
  unfold pyRound
  rw [div_le_iff₀ (by norm_num : (0:ℚ) < 10 ^ 2)]
  norm_num at h ⊢
  linarith

theorem pyRound2_nonneg {x : ℚ} (hx : 0 ≤ x) : 0 ≤ pyRound x 2 := by
  unfold pyRound
  apply div_nonneg _ (by norm_num)
  exact_mod_cast roundHalfEven_nonneg (by positivity)

theorem calculate_kelly_stake_bound {s : LegacyAgentState} {p odds st : ℚ}
    (hb : 0 < s.bankroll) (hkf : 0 ≤ s.kelly_fraction) (hodds : 1 < odds)
    (h : calculate_kelly_stake s p odds = .ok st) :
    0 ≤ st ∧ st ≤ s.bankroll * (1/10) + 1/200 := by
  unfold calculate_kelly_stake at h
  rw [if_neg (by intro h0; linarith [h0] : ¬ (odds - 1 = 0))] at h
  simp only [Except.ok.injEq] at h
  subst h
  set stake := s.bankroll * max 0 (((odds - 1) * p - (1 - p)) / (odds - 1)) *
    s.kelly_fraction with hst
  have hstake : 0 ≤ stake := by
    apply mul_nonneg _ hkf
    exact mul_nonneg hb.le (le_max_left 0 _)
  have hmax : 0 ≤ s.bankroll * (1/10) := by positivity
  constructor
  · exact pyRound2_nonneg (le_min hstake hmax)
  · calc pyRound (min stake (s.bankroll * (1/10))) 2
        ≤ min stake (s.bankroll * (1/10)) + 1/200 := pyRound2_le _
      _ ≤ s.bankroll * (1/10) + 1/200 := by
          have := min_le_right stake (s.bankroll * (1/10))
          linarith

/-! ## Legacy recommendation characterization -/

theorem legacy_make_recommendation_ok {s : LegacyAgentState} {p : ℚ}
    {name : String} {odds thr : ℚ} {out : LegacyRecommendation}
    (h : legacy_make_recommendation s p name odds thr = .ok out) :
    (out.action = "BET" ↔ (p * odds - 1) * 100 > thr) ∧
    (out.action = "NO BET" → out.stake = 0) := by
  unfold legacy_make_recommendation calculate_expected_value at h
  by_cases ho : odds = 0
  · simp [ho, Bind.bind, Except.bind] at h
  · rw [if_neg ho] at h
    by_cases hbet : (p * odds - 1) * 100 > thr
    · simp only [Bind.bind, Except.bind, if_pos hbet] at h
      cases hk : calculate_kelly_stake s p odds with
      | error e => rw [hk] at h; exact absurd h (by simp)
      | ok st =>
        rw [hk] at h
        simp only [Except.ok.injEq] at h
        subst h
        constructor
        · simpa using hbet
        · intro hno; simp at hno
    · simp only [Bind.bind, Except.bind, if_neg hbet] at h
      simp only [Except.ok.injEq] at h
      subst h
      constructor
      · simp [hbet]
      · intro _; rfl

/-! ## Evaluate failure characterization -/

theorem odds_to_decimal_unsupported {odds_value : ℚ} {odds_type : String}
    (h1 : strLower odds_type ≠ "decimal") (h2 : strLower odds_type ≠ "american") :
    odds_to_decimal odds_value odds_type =
      .error ("Unsupported odds_type: " ++ odds_type) := by
  unfold odds_to_decimal
  rw [if_neg h1, if_neg h2]

theorem odds_to_decimal_american_zero {odds_value : ℚ} {odds_type : String}
    (h1 : strLower odds_type = "american") (h2 : odds_value = 0) :
    odds_to_decimal odds_value odds_type =
      .error "ZeroDivisionError: 100.0 / abs(0)" := by
  unfold odds_to_decimal
  rw [if_neg (by rw [h1]; decide), if_pos h1, if_neg (by rw [h2]; norm_num),
    if_pos (by rw [h2]; norm_num)]

theorem make_recommendation_of_odds_err {s : AgentState}
    {market side context : String} {coord : String → ℚ × String}
    {odds_value : ℚ} {odds_type : String} {ev_threshold : Option ℚ} {e : String}
    (h : odds_to_decimal odds_value odds_type = .error e) :
    make_recommendation s market side context coord odds_value odds_type
      ev_threshold = .error e := by
  unfold make_recommendation
  simp [h, Bind.bind, Except.bind]

theorem make_recommendation_of_market_err {s : AgentState}
    {market side context : String} {coord : String → ℚ × String}
    {odds_value : ℚ} {odds_type : String} {ev_threshold : Option ℚ}
    (hm : market ∉ registeredMarkets) :
    ∃ e, make_recommendation s market side context coord odds_value odds_type
      ev_threshold = .error e := by
  unfold make_recommendation
  cases hdec : odds_to_decimal odds_value odds_type with
  | error e => exact ⟨e, by simp [hdec, Bind.bind, Except.bind]⟩
  | ok dec =>
    cases himp : implied_prob dec with
    | error e => exact ⟨e, by simp [hdec, himp, Bind.bind, Except.bind]⟩
    | ok p_imp =>
      exact ⟨"No coordinator registered for market " ++ market,
        by simp [hdec, himp, Bind.bind, Except.bind, hm]⟩

/-! ## Settlement characterization -/

theorem settleFirst_computes (bankroll : ℚ) (pre post : List BetRecord)
    (rec : BetRecord) (bet_id : Nat) (outcome : Outcome)
    (hpre : ∀ r ∈ pre, ¬(r.id = bet_id ∧ r.result = BetResult.open))
    (hid : rec.id = bet_id) (hopen : rec.result = BetResult.open) :
    settleFirst bankroll (pre ++ rec :: post) bet_id outcome =
      some (pre ++ (settleRecord bankroll rec outcome).1 :: post,
            (settleRecord bankroll rec outcome).1,
            (settleRecord bankroll rec outcome).2) := by
  induction pre with
  | nil =>
    simp only [List.nil_append, settleFirst]
    rw [if_pos ⟨hid, hopen⟩]
  | cons r rest ih =>
    rw [List.cons_append, settleFirst,
      if_neg (hpre r (List.mem_cons_self r rest)),
      ih fun x hx => hpre x (List.mem_cons_of_mem r hx)]
    rfl

/-! ## Claim theorems -/

/-- C8: `to_decimal(v, "decimal")` returns `v` unchanged (the decimal
round-trip is the identity); American odds give `1 + v/100` for `v > 0` and
`1 + 100/|v|` for `v < 0`; in particular `to_decimal(150, "american") = 2.5`
and `to_decimal(-120, "american") = 11/6`. -/
theorem odds_to_decimal_spec (v : ℚ) :
    odds_to_decimal v "decimal" = .ok v ∧
    (odds_to_decimal v "decimal" >>= fun d => odds_to_decimal d "decimal")
      = .ok v ∧
    (0 < v → odds_to_decimal v "american" = .ok (1 + v / 100)) ∧
    (v < 0 → odds_to_decimal v "american" = .ok (1 + 100 / |v|)) ∧
    odds_to_decimal 150 "american" = .ok (5/2) ∧
    odds_to_decimal (-120) "american" = .ok (11/6) := by
  have hld : strLower "decimal" = "decimal" := by decide
  have hla : strLower "american" = "american" := by decide
  have h1 : ∀ w : ℚ, odds_to_decimal w "decimal" = .ok w := by
    intro w
    unfold odds_to_decimal
    rw [if_pos hld]
  have hpos : ∀ w : ℚ, 0 < w →
      odds_to_decimal w "american" = .ok (1 + w / 100) := by
    intro w hw
    unfold odds_to_decimal
    rw [if_neg (by rw [hla]; decide), if_pos hla, if_pos hw]
  have hneg : ∀ w : ℚ, w < 0 →
      odds_to_decimal w "american" = .ok (1 + 100 / |w|) := by
    intro w hw
    unfold odds_to_decimal
    rw [if_neg (by rw [hla]; decide), if_pos hla,
      if_neg (by simp only [not_lt]; linarith),
      if_neg (abs_ne_zero.mpr (ne_of_lt hw))]
  refine ⟨h1 v, by simp [h1 v, h1, Bind.bind, Except.bind], hpos v, hneg v,
    ?_, ?_⟩
  · rw [hpos 150 (by norm_num)]
    simp only [Except.ok.injEq]
    norm_num
  · rw [hneg (-120) (by norm_num)]
    simp only [Except.ok.injEq]
    rw [abs_of_neg (by norm_num : (-120:ℚ) < 0)]
    norm_num

/-- C8 witness: the American branch evaluated at the concrete price 150. -/
theorem odds_to_decimal_spec_witness :
    (0:ℚ) < 150 ∧ odds_to_decimal 150 "american" = .ok (1 + 150 / 100) :=
  ⟨by norm_num, (odds_to_decimal_spec 150).2.2.1 (by norm_num)⟩

/-- C10: for `odds ≠ 0` the legacy `calculate_expected_value(p, odds)` is
exactly `100` times agent_v2's `expected_value(p, odds)`
(since `p*odds - 1 = p*(odds-1) - (1-p)`). -/
theorem legacy_ev_is_100x (p odds : ℚ) (h : odds ≠ 0) :
    calculate_expected_value p odds = .ok (100 * expected_value p odds) := by
  simp only [calculate_expected_value, expected_value, if_neg h,
    Except.ok.injEq]
  ring

/-- C10 witness: evaluated at `p = 1/2`, `odds = 2`. -/
theorem legacy_ev_is_100x_witness :
    (2:ℚ) ≠ 0 ∧
    calculate_expected_value (1/2) 2 = .ok (100 * expected_value (1/2) 2) :=
  ⟨by norm_num, legacy_ev_is_100x (1/2) 2 (by norm_num)⟩

/-- C6: with no positive edge (`p*(dec-1) ≤ 1-p`) the clamped raw Kelly
fraction is `0`, hence the sized stake is `0`; and the sizing never returns
a negative stake. -/
theorem no_edge_zero_stake (s : AgentState) (p dec : ℚ)
    (hp0 : 0 ≤ p) (hp1 : p ≤ 1) (hedge : p * (dec - 1) ≤ 1 - p) :
    kelly_fraction_raw p dec = 0 ∧ kelly_stake s p dec = 0 ∧
    ∀ (q dec' : ℚ), 0 ≤ kelly_stake s q dec' := by
  have hraw : kelly_fraction_raw p dec = 0 := by
    simp only [kelly_fraction_raw]
    by_cases hb : 0 < dec - 1
    · rw [if_pos hb]
      apply max_eq_left
      apply div_nonpos_iff.mpr
      exact Or.inr ⟨by linarith [mul_comm p (dec - 1)], hb.le⟩
    · rw [if_neg hb]
      simp
  refine ⟨hraw, ?_, fun q dec' => kelly_stake_nonneg s q dec'⟩
  simp only [kelly_stake, hraw, zero_mul, mul_zero]
  exact max_eq_left (min_le_left 0 _)

/-- C6 witness: `p = 1/2`, `dec = 3/2` has no edge
(`1/4 ≤ 1/2`), so the stake is zero. -/
theorem no_edge_zero_stake_witness :
    ((0:ℚ) ≤ 1/2 ∧ (1/2:ℚ) ≤ 1 ∧ (1/2:ℚ) * (3/2 - 1) ≤ 1 - 1/2) ∧
    (kelly_fraction_raw (1/2) (3/2) = 0 ∧ kelly_stake demoState (1/2) (3/2) = 0 ∧
     ∀ (q dec' : ℚ), 0 ≤ kelly_stake demoState q dec') :=
  ⟨⟨by norm_num, by norm_num, by norm_num⟩,
   no_edge_zero_stake demoState (1/2) (3/2) (by norm_num) (by norm_num)
     (by norm_num)⟩

/-- C9 counterexample: the claim asserts that for `decimal_price ≤ 1.0` the
sized stake is `0` in both implementations; the legacy
`calculate_kelly_stake` at `p = 1/2`, `odds = 1/2` (where `b < 0` makes the
unguarded quotient positive) returns `100`, not `0`. -/
theorem degenerate_price_counterexample :
    calculate_kelly_stake ⟨1000, 1000, 1/4⟩ (1/2) (1/2) = .ok 100 ∧
    (100:ℚ) ≠ 0 := by
  constructor
  · simp only [calculate_kelly_stake, pyRound, roundHalfEven]
    norm_num [max_def, min_def]
  · norm_num

/-- C9 amended: agent_v2's `kelly_stake` takes the `b ≤ 0` branch for
`dec ≤ 1` and returns `0`, and is never negative for any input; the legacy
`calculate_kelly_stake`, by contrast, raises `ZeroDivisionError` at
`odds = 1` (and can return a positive stake for `odds < 1`). -/
theorem degenerate_price_amended :
    (∀ (s : AgentState) (p dec : ℚ), dec ≤ 1 → kelly_stake s p dec = 0) ∧
    (∀ (s : AgentState) (p dec : ℚ), 0 ≤ kelly_stake s p dec) ∧
    (∀ (ls : LegacyAgentState) (p : ℚ),
       calculate_kelly_stake ls p 1 =
         .error "ZeroDivisionError: (b * p - q) / b") := by
  refine ⟨fun s p dec h => kelly_stake_of_nonpos_price s h,
          fun s p dec => kelly_stake_nonneg s p dec, ?_⟩
  intro ls p
  unfold calculate_kelly_stake
  norm_num

/-- C9 witness: the amended statement instantiated at `dec = 1/2` for the v2
stake, at `dec = 5/2` for non-negativity, and at `odds = 1` for the legacy
division by zero. -/
theorem degenerate_price_amended_witness :
    ((1:ℚ)/2 ≤ 1 ∧ kelly_stake demoState (46/100) (1/2) = 0) ∧
    0 ≤ kelly_stake demoState (46/100) (5/2) ∧
    calculate_kelly_stake ⟨1000, 1000, 1/4⟩ (46/100) 1 =
      .error "ZeroDivisionError: (b * p - q) / b" :=
  ⟨⟨by norm_num,
    degenerate_price_amended.1 demoState (46/100) (1/2) (by norm_num)⟩,
   degenerate_price_amended.2.1 demoState (46/100) (5/2),
   degenerate_price_amended.2.2 ⟨1000, 1000, 1/4⟩ (46/100)⟩

/-- C1 counterexample: the claim's bound `s ≤ bankroll * max_stake_pct`
fails for the legacy implementation because of `round(stake, 2)`: with
bankroll `100.06`, `p = 1`, `odds = 2` the capped stake `10.006` rounds to
`10.01 > 10.006`. -/
theorem stake_cap_counterexample :
    calculate_kelly_stake ⟨5003/50, 5003/50, 1/4⟩ 1 2 = .ok (1001/100) ∧
    ¬ ((1001:ℚ)/100 ≤ 5003/50 * (1/10)) := by
  constructor
  · simp only [calculate_kelly_stake, pyRound, roundHalfEven]
    norm_num [max_def, min_def]
  · norm_num

/-- C1 amended: agent_v2's `kelly_stake` satisfies
`0 ≤ s ≤ bankroll * max_stake_pct` exactly, for every probability and price;
the legacy `calculate_kelly_stake` (fixed `0.10` cap, then `round(stake,2)`)
satisfies the bound only up to the half-cent rounding slack:
`0 ≤ s ≤ bankroll * 0.10 + 0.005`. -/
theorem stake_cap_bound :
    (∀ (s : AgentState) (p dec : ℚ), 0 < s.bankroll → 0 < s.max_stake_pct →
       0 ≤ kelly_stake s p dec ∧
       kelly_stake s p dec ≤ s.bankroll * s.max_stake_pct) ∧
    (∀ (ls : LegacyAgentState) (p odds st : ℚ), 0 < ls.bankroll →
       0 < ls.kelly_fraction → 1 < odds →
       calculate_kelly_stake ls p odds = .ok st →
       0 ≤ st ∧ st ≤ ls.bankroll * (1/10) + 1/200) := by
  constructor
  · intro s p dec hb hm
    exact ⟨kelly_stake_nonneg s p dec,
      kelly_stake_le_cap s p dec (by positivity)⟩
  · intro ls p odds st hb hkf hodds h
    exact calculate_kelly_stake_bound hb hkf.le hodds h

/-- C1 witness: the v2 bound at the worked scenario (`p = 0.46`,
`dec = 2.5`, bankroll 1000, cap 10%), and the legacy bound at the
same price where the stake 25 rounds to itself. -/
theorem stake_cap_bound_witness :
    ((0:ℚ) < demoState.bankroll ∧ (0:ℚ) < demoState.max_stake_pct ∧
     0 ≤ kelly_stake demoState (46/100) (5/2) ∧
     kelly_stake demoState (46/100) (5/2) ≤
       demoState.bankroll * demoState.max_stake_pct) ∧
    ((1:ℚ) < 5/2 ∧ 0 ≤ (25:ℚ) ∧ (25:ℚ) ≤ 1000 * (1/10) + 1/200) := by
  have hb : (0:ℚ) < demoState.bankroll := by norm_num [demoState]
  have hm : (0:ℚ) < demoState.max_stake_pct := by norm_num [demoState]
  have h1 := stake_cap_bound.1 demoState (46/100) (5/2) hb hm
  have hk : calculate_kelly_stake ⟨1000, 1000, 1/4⟩ (46/100) (5/2) =
      .ok 25 := by
    simp only [calculate_kelly_stake, pyRound, roundHalfEven]
    norm_num [max_def, min_def]
  have h2 := stake_cap_bound.2 ⟨1000, 1000, 1/4⟩ (46/100) (5/2) 25
    (by norm_num) (by norm_num) (by norm_num) hk
  exact ⟨⟨hb, hm, h1.1, h1.2⟩, ⟨by norm_num, h2.1, h2.2⟩⟩

/-- C5 counterexample: the claim's iff `decision = "BET" ↔ ev ≥ threshold`
fails for the legacy agent, whose comparison is strict (`ev > ev_threshold`):
at `p = 1/2`, `odds = 2`, threshold `0` the computed ev is `0 ≥ 0`, yet the
returned action is `"NO BET"`. -/
theorem decision_threshold_counterexample :
    calculate_expected_value (1/2) 2 = .ok 0 ∧ ((0:ℚ) ≥ 0) ∧
    (legacy_make_recommendation ⟨1000, 1000, 1/4⟩ (1/2) "model" 2 0).map
        LegacyRecommendation.action = .ok "NO BET" := by
  refine ⟨by norm_num [calculate_expected_value], le_refl 0, ?_⟩
  simp only [legacy_make_recommendation, calculate_expected_value]
  norm_num [Bind.bind, Except.bind, Except.map]

/-- C5 amended: in agent_v2 the decision is `"BET"` iff `ev ≥ threshold`
(threshold = the caller-supplied `ev_threshold` if provided, else the
configured default) and a `"NO BET"` record has stake `0`; the legacy agent
instead bets iff `ev > ev_threshold` strictly (and likewise returns stake
`0` on `"NO BET"`). -/
theorem decision_threshold_amended :
    (∀ (s : AgentState) (market side context : String)
       (coord : String → ℚ × String) (odds_value : ℚ) (odds_type : String)
       (ev_threshold : Option ℚ) (s' : AgentState) (rec : BetRecord)
       (d : String),
       make_recommendation s market side context coord odds_value odds_type
         ev_threshold = .ok (s', rec, d) →
       ((d = "BET" ↔ rec.ev ≥ ev_threshold.getD s.default_ev_threshold) ∧
        (d = "NO BET" → rec.stake = 0))) ∧
    (∀ (ls : LegacyAgentState) (p : ℚ) (name : String) (odds thr : ℚ)
       (out : LegacyRecommendation),
       legacy_make_recommendation ls p name odds thr = .ok out →
       ((out.action = "BET" ↔ (p * odds - 1) * 100 > thr) ∧
        (out.action = "NO BET" → out.stake = 0))) := by
  constructor
  · intro s market side context coord odds_value odds_type ev_threshold
      s' rec d h
    obtain ⟨_, _, _, _, h5, h6⟩ := make_recommendation_ok h
    exact ⟨h5, h6⟩
  · intro ls p name odds thr out h
    exact legacy_make_recommendation_ok h

/-- C5 witness: the legacy agent evaluated at `p = 0.6`, `odds = 2`,
threshold `5`: ev is `20 > 5`, the action is `"BET"`. -/
theorem decision_threshold_amended_witness :
    legacy_make_recommendation ⟨1000, 1000, 1/4⟩ (3/5) "m" 2 5 =
      .ok demoLegacyOut ∧
    (demoLegacyOut.action = "BET" ↔ ((3:ℚ)/5 * 2 - 1) * 100 > 5) ∧
    (demoLegacyOut.action = "NO BET" → demoLegacyOut.stake = 0) := by
  have h : legacy_make_recommendation ⟨1000, 1000, 1/4⟩ (3/5) "m" 2 5 =
      .ok demoLegacyOut := by
    simp only [legacy_make_recommendation, calculate_expected_value,
      calculate_kelly_stake, pyRound, roundHalfEven, demoLegacyOut]
    norm_num [Bind.bind, Except.bind, max_def, min_def]
  have h2 := decision_threshold_amended.2 ⟨1000, 1000, 1/4⟩ (3/5) "m" 2 5
    demoLegacyOut h
  exact ⟨h, h2.1, h2.2⟩

/-- C7: an evaluate call that fails in steps 1-3 — an unsupported
price-format string, a zero American price, or a market with no registered
coordinator — raises an error before any mutation: the agent state (ledger
and bankroll) is unchanged. -/
theorem evaluate_failure_no_mutation (s : AgentState)
    (market side context : String) (coord : String → ℚ × String)
    (odds_value : ℚ) (odds_type : String) (ev_threshold : Option ℚ)
    (h : (strLower odds_type ≠ "decimal" ∧ strLower odds_type ≠ "american") ∨
         (strLower odds_type = "american" ∧ odds_value = 0) ∨
         market ∉ registeredMarkets) :
    (∃ e, make_recommendation s market side context coord odds_value
            odds_type ev_threshold = .error e) ∧
    applyOp s (.eval market side context coord odds_value odds_type
        ev_threshold) = s := by
  have herr : ∃ e, make_recommendation s market side context coord odds_value
      odds_type ev_threshold = .error e := by
    rcases h with ⟨h1, h2⟩ | ⟨h1, h2⟩ | hm
    · exact ⟨_, make_recommendation_of_odds_err
        (odds_to_decimal_unsupported h1 h2)⟩
    · exact ⟨_, make_recommendation_of_odds_err
        (odds_to_decimal_american_zero h1 h2)⟩
    · exact make_recommendation_of_market_err hm
  obtain ⟨e, he⟩ := herr
  exact ⟨⟨e, he⟩, by simp [applyOp, he]⟩

/-- C7 witness: evaluating the unregistered `"spread"` market fails and
leaves the agent state intact. -/
theorem evaluate_failure_no_mutation_witness :
    "spread" ∉ registeredMarkets ∧
    ((∃ e, make_recommendation demoState "spread" "DET -3.5" "ctx" demoCoord
        (5/2) "decimal" none = .error e) ∧
     applyOp demoState (.eval "spread" "DET -3.5" "ctx" demoCoord (5/2)
        "decimal" none) = demoState) := by
  have hm : "spread" ∉ registeredMarkets := by decide
  exact ⟨hm, evaluate_failure_no_mutation demoState "spread" "DET -3.5" "ctx"
    demoCoord (5/2) "decimal" none (Or.inr (Or.inr hm))⟩

/-- C3: settling an id that has no open record (never created, or already
settled) raises the hard failure and leaves the bankroll and every ledger
record unchanged; in particular, after a successful settle of an id (with
unique ids in the ledger), a second settle of the same id fails. -/
theorem settle_unknown_or_settled :
    (∀ (s : AgentState) (bet_id : Nat) (outcome : Outcome),
       (∀ r ∈ s.history, ¬(r.id = bet_id ∧ r.result = BetResult.open)) →
       record_result s bet_id outcome =
         .error "Bet id not found or already settled." ∧
       applyOp s (.settle bet_id outcome) = s) ∧
    (∀ (s : AgentState) (bet_id : Nat) (oc oc' : Outcome)
       (s' : AgentState) (rec : BetRecord),
       (s.history.map BetRecord.id).Nodup →
       record_result s bet_id oc = .ok (s', rec) →
       record_result s' bet_id oc' =
         .error "Bet id not found or already settled." ∧
       applyOp s' (.settle bet_id oc') = s') := by
  have part1 : ∀ (s : AgentState) (bet_id : Nat) (outcome : Outcome),
      (∀ r ∈ s.history, ¬(r.id = bet_id ∧ r.result = BetResult.open)) →
      record_result s bet_id outcome =
        .error "Bet id not found or already settled." ∧
      applyOp s (.settle bet_id outcome) = s := by
    intro s bet_id outcome h
    have herr : record_result s bet_id outcome =
        .error "Bet id not found or already settled." := by
      unfold record_result
      rw [settleFirst_none_iff.mpr h]
    exact ⟨herr, by simp [applyOp, herr]⟩
  constructor
  · intro s bet_id outcome h
    exact part1 s bet_id outcome h
  · intro s bet_id oc oc' s' rec hnd hok
    unfold record_result at hok
    cases hsf : settleFirst s.bankroll s.history bet_id oc with
    | none => rw [hsf] at hok; exact absurd hok (by simp)
    | some out =>
      obtain ⟨hist2, r2, nb⟩ := out
      rw [hsf] at hok
      simp only [Except.ok.injEq, Prod.mk.injEq] at hok
      obtain ⟨hs', hr⟩ := hok
      obtain ⟨pre, rc, post, e1, e2, e3, e4, e5, e6, e7⟩ := settleFirst_some hsf
      rw [e1] at hnd
      simp only [List.map_append, List.map_cons, List.nodup_append,
        List.nodup_cons] at hnd
      obtain ⟨hnd_pre, ⟨hnotin_post, hnd_post⟩, hdisj⟩ := hnd
      apply part1
      rw [← hs']
      simp only []
      rw [e7]
      intro r' hr'
      rcases List.mem_append.mp hr' with hx | hx
      · rintro ⟨hid', _⟩
        exact hdisj (List.mem_map_of_mem BetRecord.id hx)
          (by rw [hid', ← e3]; exact List.mem_cons_self _ _)
      · rcases List.mem_cons.mp hx with hx | hx
        · subst hx
          rintro ⟨_, hres⟩
          rw [e5] at hres
          exact Outcome.toResult_ne_open oc hres
        · rintro ⟨hid', _⟩
          apply hnotin_post
          rw [e3, ← hid']
          exact List.mem_map_of_mem BetRecord.id hx

/-- C3 witness: settling the absent id 5 on the demo ledger fails and leaves
the state unchanged; after settling id 0, settling id 0 again fails. -/
theorem settle_unknown_or_settled_witness :
    ((∀ r ∈ demoLedger.history, ¬(r.id = 5 ∧ r.result = BetResult.open)) ∧
     record_result demoLedger 5 Outcome.win =
       .error "Bet id not found or already settled." ∧
     applyOp demoLedger (.settle 5 Outcome.win) = demoLedger) ∧
    ((demoLedger.history.map BetRecord.id).Nodup ∧
     record_result demoLedger 0 Outcome.win =
       .ok (demoSettledState, demoSettledRecord) ∧
     record_result demoSettledState 0 Outcome.loss =
       .error "Bet id not found or already settled." ∧
     applyOp demoSettledState (.settle 0 Outcome.loss) =
       demoSettledState) := by
  have habs : ∀ r ∈ demoLedger.history,
      ¬(r.id = 5 ∧ r.result = BetResult.open) := by
    simp [demoLedger, demoRecord]
  have hnd : (demoLedger.history.map BetRecord.id).Nodup := by
    simp [demoLedger, demoRecord]
  have hok : record_result demoLedger 0 Outcome.win =
      .ok (demoSettledState, demoSettledRecord) := by
    simp only [record_result, demoLedger, demoRecord, settleFirst,
      settleRecord, demoSettledState, demoSettledRecord, Outcome.toResult]
    norm_num
  have h1 := settle_unknown_or_settled.1 demoLedger 5 Outcome.win habs
  have h2 := settle_unknown_or_settled.2 demoLedger 0 Outcome.win Outcome.loss
    demoSettledState demoSettledRecord hnd hok
  exact ⟨⟨habs, h1.1, h1.2⟩, ⟨hnd, hok, h2.1, h2.2⟩⟩

/-- C4: settling the (first) open record with the given id computes
`pnl = stake * (decimal_price - 1)` on a `"win"` and `pnl = -stake` on a
`"loss"`, adds the pnl to the bankroll, stamps the record's result and the
post-update bankroll snapshot, returns that settled record, and changes no
other field of the record and no other record of the ledger. -/
theorem settle_updates_record (s : AgentState) (bet_id : Nat)
    (outcome : Outcome) (pre post : List BetRecord) (rec settled : BetRecord)
    (hhist : s.history = pre ++ rec :: post)
    (hpre : ∀ r ∈ pre, ¬(r.id = bet_id ∧ r.result = BetResult.open))
    (hid : rec.id = bet_id) (hopen : rec.result = BetResult.open)
    (hsettled : settled =
      { rec with result := outcome.toResult, pnl := pnlOf rec outcome,
                 bankroll_after := some (s.bankroll + pnlOf rec outcome) }) :
    record_result s bet_id outcome = .ok
      ({ s with bankroll := s.bankroll + pnlOf rec outcome,
                history := pre ++ settled :: post },
       settled) ∧
    pnlOf rec Outcome.win = rec.stake * (rec.decimal_odds - 1) ∧
    pnlOf rec Outcome.loss = -rec.stake := by
  subst hsettled
  refine ⟨?_, rfl, rfl⟩
  unfold record_result
  rw [hhist, settleFirst_computes s.bankroll pre post rec bet_id outcome
    hpre hid hopen, settleRecord_eq]

/-- C4 witness: the spec's worked example — stake 25 at decimal price 2.5
settled as a win gives pnl 37.5 and moves the bankroll from 1000 to
1037.5. -/
theorem settle_updates_record_witness :
    record_result demoLedger 0 Outcome.win =
      .ok (demoSettledState, demoSettledRecord) ∧
    pnlOf demoRecord Outcome.win = (75:ℚ)/2 ∧
    demoSettledState.bankroll = (2075:ℚ)/2 := by
  have hset : demoSettledRecord =
      { demoRecord with
          result := Outcome.toResult Outcome.win,
          pnl := pnlOf demoRecord Outcome.win,
          bankroll_after :=
            some (demoLedger.bankroll + pnlOf demoRecord Outcome.win) } := by
    simp only [demoSettledRecord, demoRecord, demoLedger, pnlOf,
      Outcome.toResult]
    norm_num
  have h := settle_updates_record demoLedger 0 Outcome.win [] [] demoRecord
    demoSettledRecord rfl (by simp) rfl rfl hset
  refine ⟨?_, by norm_num [pnlOf, demoRecord], by norm_num [demoSettledState]⟩
  rw [h.1]
  simp only [demoLedger, demoRecord, demoSettledState, demoSettledRecord,
    pnlOf]
  norm_num

/-- C2: along any finite sequence of evaluate and (successful) settle calls
starting from an empty ledger, the bankroll equals the starting bankroll
plus the sum of the settled pnl values; bet ids stay unique (so no pnl is
counted twice); and a trace of evaluate calls alone never changes the
bankroll. -/
theorem settlement_conservation (s0 : AgentState) (ops : List Op)
    (h0 : s0.history = []) :
    (run s0 ops).bankroll = s0.bankroll + settledPnl (run s0 ops).history ∧
    ((run s0 ops).history.map BetRecord.id).Nodup ∧
    (∀ (s : AgentState) (market side context : String)
       (coord : String → ℚ × String) (odds_value : ℚ) (odds_type : String)
       (ev_threshold : Option ℚ),
       (applyOp s (.eval market side context coord odds_value odds_type
          ev_threshold)).bankroll = s.bankroll) ∧
    (evalOnly ops → (run s0 ops).bankroll = s0.bankroll) := by
  have hinv : ledgerInv s0.bankroll s0 :=
    ⟨by rw [h0, settledPnl_nil, add_zero], by rw [h0]; simp, by rw [h0]; simp⟩
  have h := run_ledgerInv ops hinv
  exact ⟨h.1, h.2.2,
    fun s market side context coord odds_value odds_type ev_threshold =>
      applyOp_eval_bankroll s market side context coord odds_value odds_type
        ev_threshold,
    fun hev => run_evalOnly_bankroll s0 ops hev⟩

/-- C2 witness: the demo trace (one evaluate that bets, then one winning
settle) starting from the empty ledger at bankroll 1000. -/
theorem settlement_conservation_witness :
    demoState.history = [] ∧
    ((run demoState demoOps).bankroll =
       demoState.bankroll + settledPnl (run demoState demoOps).history ∧
     ((run demoState demoOps).history.map BetRecord.id).Nodup ∧
     (∀ (s : AgentState) (market side context : String)
        (coord : String → ℚ × String) (odds_value : ℚ) (odds_type : String)
        (ev_threshold : Option ℚ),
        (applyOp s (.eval market side context coord odds_value odds_type
           ev_threshold)).bankroll = s.bankroll) ∧
     (evalOnly demoOps →
       (run demoState demoOps).bankroll = demoState.bankroll)) :=
  ⟨rfl, settlement_conservation demoState demoOps rfl⟩

end BetAI

